import Mathlib

/-!
Verification of the kithara extraction-and-cataloging frontend against its
specification. The Svelte/TypeScript frontend sources are embedded shallowly:
stores and component handlers become pure functions over explicit state
records, and the fallible backend calls become explicit result values.
The Rust backend (orchestrator, bank parser, categorizer, catalog) is not
part of the frontend sources; where a property depends on it, the component
is modelled from the specification text and marked as such in its doc
comment.
-/

namespace Kithara

/-! ## Filter state and sidebar handlers

From src/lib/stores/sounds.svelte.ts (filterState, fetchSounds) and
src/lib/components/CategorySidebar.svelte (handleFavoritesClick,
handleCategoryClick). -/

structure FilterState where
  query : String
  category : Option String
  unitType : Option String
  showFavoritesOnly : Bool
deriving DecidableEq, Repr

def handleFavoritesClick (f : FilterState) : FilterState :=
  { f with showFavoritesOnly := true, category := none }

def handleCategoryClick (categoryId : Option String) (f : FilterState) : FilterState :=
  { f with showFavoritesOnly := false, category := categoryId }

inductive SidebarSelection where
  | favorites
  | category (categoryId : Option String)
deriving DecidableEq, Repr

def applySidebar : SidebarSelection → FilterState → FilterState
  | .favorites, f => handleFavoritesClick f
  | .category c, f => handleCategoryClick c f

inductive FetchRequest where
  | favoritesList
  | search (query : String) (category : Option String) (unitType : Option String)
deriving DecidableEq, Repr

def fetchSoundsRequest (f : FilterState) : FetchRequest :=
  if f.showFavoritesOnly then .favoritesList
  else .search f.query f.category f.unitType

/-! ## SeekBar position arithmetic

From src/lib/components/music/SeekBar.svelte (displayProgress, handleMouseUp).
JavaScript numbers are modelled as rationals. -/

def displayProgress (isDragging : Bool) (dragProgress position duration : ℚ) : ℚ :=
  if isDragging then dragProgress
  else if 0 < duration then min 100 (max 0 (position / duration * 100))
  else 0

def handleMouseUp (isDragging : Bool) (dragProgress duration : ℚ) : Option ℚ :=
  if isDragging ∧ 0 < duration then some (dragProgress / 100 * duration) else none

/-! ## Extraction progress arithmetic

progressPercent is from src/lib/components/ExtractionProgress.svelte line 30. -/

/-- Modelled from the spec: the orchestrator (Rust backend, absent from the
frontend sources) maintains the job progress as completedCount / totalCount
after each processed item. -/
def jobProgress (completedCount totalCount : ℕ) : ℚ :=
  (completedCount : ℚ) / (totalCount : ℚ)

def progressPercent (progress : ℚ) : ℤ := round (progress * 100)

/-! ## Sound rows and the frontend sounds store

Sound mirrors the generated Sound type (see docs/architecture.md data model);
the store state and toggleFavoriteAction are from
src/lib/stores/sounds.svelte.ts lines 216-235. The backend promise of
apiToggleFavorite is embedded as an explicit Except value. -/

structure Sound where
  id : String
  eventName : String
  displayName : String
  category : String
  unitType : Option String
  subcategory : String
  duration : ℚ
  filePath : String
  tags : List String
  isFavorite : Bool
deriving DecidableEq, Repr

structure SoundsState where
  sounds : List Sound
  favoritesCount : ℤ
  loading : Bool
  errMsg : Option String
deriving DecidableEq, Repr

/-- Array.prototype.findIndex, returning the first matching index. -/
def findIndex (p : α → Bool) : List α → Option ℕ
  | [] => none
  | a :: l => if p a then some 0 else (findIndex p l).map (· + 1)

def toggleFavoriteAction (soundId : String) (backendResult : Except String Bool)
    (st : SoundsState) : SoundsState :=
  match findIndex (fun s => s.id = soundId) st.sounds with
  | none => st
  | some soundIndex =>
    match st.sounds[soundIndex]? with
    | none => st
    | some sound =>
      let previousState := sound.isFavorite
      let previousCount := st.favoritesCount
      let updated : SoundsState :=
        { st with
          sounds := st.sounds.set soundIndex { sound with isFavorite := !previousState },
          favoritesCount := st.favoritesCount + (if previousState then -1 else 1) }
      match backendResult with
      | .ok _ => updated
      | .error e =>
        { updated with
          sounds := updated.sounds.set soundIndex { sound with isFavorite := previousState },
          favoritesCount := previousCount,
          errMsg := some ("Failed to toggle favorite: " ++ e) }

/-- Modelled from the spec: the Catalog favorite-toggle (Rust backend command
toggle_favorite, absent from the frontend sources) flips isFavorite on the
row with the given id and returns the new value of the flag. -/
def catalogToggleFavorite (rows : List Sound) (soundId : String) :
    Option Bool × List Sound :=
  match rows.find? (fun r => r.id = soundId) with
  | none => (none, rows)
  | some r =>
    (some (!r.isFavorite),
     rows.map (fun s => if s.id = soundId then { s with isFavorite := !s.isFavorite } else s))

/-! ## Extraction job state machine

Modelled from the spec: the ExtractionOrchestrator (Rust backend, absent
from the frontend sources). The frontend callers are
src/lib/api.ts startExtraction and
src/lib/components/ExtractionProgress.svelte handleStart. -/

inductive ExtractionState where
  | notStarted
  | inProgress
  | complete
  | jobError
deriving DecidableEq, Repr

structure ExtractionJob where
  state : ExtractionState
  progress : ℚ
  currentFile : Option String
  errMsg : Option String
  cancelRequested : Bool
deriving DecidableEq, Repr

/-- The status snapshot shape {state, progress, currentFile, error} polled by
the frontend (ExtractionProgress.svelte lines 14-19). -/
structure ExtractionStatus where
  state : ExtractionState
  progress : ℚ
  currentFile : Option String
  errMsg : Option String
deriving DecidableEq, Repr

def statusSnapshot (j : ExtractionJob) : ExtractionStatus :=
  ⟨j.state, j.progress, j.currentFile, j.errMsg⟩

/-- Modelled from the spec: a start request while a job is already InProgress
is a no-op returning the current status; otherwise it creates the single
fresh InProgress job. -/
def startRequest (installPath : String) (j : ExtractionJob) :
    ExtractionJob × ExtractionStatus :=
  if j.state = .inProgress then (j, statusSnapshot j)
  else
    let started : ExtractionJob :=
      { state := .inProgress, progress := 0, currentFile := none, errMsg := none,
        cancelRequested := false }
    (started, statusSnapshot started)

/-! ## Categorizer

Modelled from the spec: the Categorizer (Rust backend metadata.rs, absent
from the frontend sources) tokenizes the short name on its delimiter, walks
ordered token tables for category and unit, derives the subcategory from the
token span around the matched tokens, and collects tags. -/

structure Categorization where
  category : String
  unitType : Option String
  subcategory : String
  tags : List String
deriving DecidableEq, Repr

def tokenize (shortName : String) : List String := shortName.splitOn "."

/-- Modelled from the spec: ordered token-to-category rules, first match
wins. -/
def categoryRules : List (String × String) :=
  [("cmbt", "combat"), ("mvmt", "movement"), ("vox", "vocal"), ("death", "death"),
   ("wpn", "weapon"), ("impact", "impact"), ("ui", "ui"), ("amb", "ambience")]

/-- Modelled from the spec: ordered token-to-unit rules, matched
case-insensitively, gendered variants normalizing to the base unit. -/
def unitRules : List (String × String) :=
  [("slinger", "Slinger"), ("slingerf", "Slinger"), ("archer", "Archer"),
   ("archerf", "Archer"), ("warrior", "Warrior"), ("horseman", "Horseman"),
   ("militia", "Militia"), ("scout", "Scout")]

def categorize (shortName : String) : Categorization :=
  let tokens := tokenize shortName
  let lowered := tokens.map String.toLower
  let cat :=
    match categoryRules.find? (fun rule => tokens.contains rule.1) with
    | some rule => rule.2
    | none => "other"
  let unit :=
    match unitRules.find? (fun rule => lowered.contains rule.1) with
    | some rule => some rule.2
    | none => none
  let catIdx := tokens.findIdx (fun t => categoryRules.any (fun rule => rule.1 = t))
  let unitIdx := lowered.findIdx (fun t => unitRules.any (fun rule => rule.1 = t))
  let sub := String.intercalate "_" (tokens.take (max (catIdx + 1) (unitIdx + 1)))
  { category := cat
    unitType := unit
    subcategory := sub
    tags := tokens ++ [cat] ++ (match unit with | some u => [u] | none => []) }

/-! ## Catalog upsert

Modelled from the spec: the Catalog (Rust backend catalog.rs, absent from
the frontend sources) upserts one row per converted asset, keyed by the
stable derived id: an existing row with the same id is replaced in place,
otherwise the row is appended. A full extraction run folds the upsert over
the batch of derived rows. -/

def upsert (rows : List Sound) (entry : Sound) : List Sound :=
  if rows.any (fun r => r.id = entry.id) then
    rows.map (fun r => if r.id = entry.id then entry else r)
  else rows ++ [entry]

def runExtraction (rows : List Sound) (batch : List Sound) : List Sound :=
  batch.foldl upsert rows

/-! ## Bank parser

Modelled from the spec: the BankParser (Rust backend bnk_parser.rs, absent
from the frontend sources). A container is a sequence of chunks; the header
chunk must come first, the index chunk holds fixed 12-byte little-endian
records, offsets are relative to the data chunk payload. A record whose
range exceeds the data chunk is skipped with a MalformedBank message naming
its assetId; a missing header chunk, or a missing or truncated index chunk,
aborts the whole container. -/

structure Chunk where
  tag : String
  payload : List ℕ
deriving DecidableEq, Repr

structure IndexRecord where
  assetId : ℕ
  offset : ℕ
  size : ℕ
deriving DecidableEq, Repr

inductive BankError where
  | malformedBank (message : String)
deriving DecidableEq, Repr

structure ParsedBank where
  records : List IndexRecord
  skipped : List (ℕ × String)
  dataLen : ℕ
deriving DecidableEq, Repr

def leU32 (b0 b1 b2 b3 : ℕ) : ℕ := b0 + 256 * (b1 + 256 * (b2 + 256 * b3))

def parseRecords : List ℕ → List IndexRecord
  | a0 :: a1 :: a2 :: a3 :: o0 :: o1 :: o2 :: o3 :: s0 :: s1 :: s2 :: s3 :: rest =>
    ⟨leU32 a0 a1 a2 a3, leU32 o0 o1 o2 o3, leU32 s0 s1 s2 s3⟩ :: parseRecords rest
  | _ => []

def headerTag : String := "BKHD"

def indexTag : String := "DIDX"

def dataTag : String := "DATA"

def findChunk (tag : String) (chunks : List Chunk) : Option Chunk :=
  chunks.find? (fun c => c.tag = tag)

def headerPresent (chunks : List Chunk) : Bool :=
  match chunks with
  | [] => false
  | first :: _ => first.tag = headerTag

def bankRecords (chunks : List Chunk) : List IndexRecord :=
  match findChunk indexTag chunks with
  | some idx => parseRecords idx.payload
  | none => []

def bankDataLen (chunks : List Chunk) : ℕ :=
  match findChunk dataTag chunks with
  | some d => d.payload.length
  | none => 0

def skipMessage (assetId : ℕ) : String :=
  "MalformedBank: index record for asset " ++ toString assetId ++ " exceeds data chunk"

def parseBank (chunks : List Chunk) : Except BankError ParsedBank :=
  if headerPresent chunks = false then .error (.malformedBank "missing header chunk")
  else
    match findChunk indexTag chunks with
    | none => .error (.malformedBank "missing index chunk")
    | some idx =>
      if idx.payload.length % 12 ≠ 0 then .error (.malformedBank "truncated index chunk")
      else
        .ok { records := (parseRecords idx.payload).filter
                (fun r => r.offset + r.size ≤ bankDataLen chunks)
              skipped := ((parseRecords idx.payload).filter
                (fun r => ¬ (r.offset + r.size ≤ bankDataLen chunks))).map
                (fun r => (r.assetId, skipMessage r.assetId))
              dataLen := bankDataLen chunks }

/-! ## Frontend API surface

From src/lib/api.ts lines 9-79: each exported wrapper, the backend command
name it invokes, its argument list with optionality (defaulted means the
argument carries a default value and may be omitted by the caller), and its
result shape. -/

inductive ArgRequirement where
  | required
  | optional
  | defaulted
deriving DecidableEq, Repr

inductive ResultShape where
  | unitShape
  | boolShape
  | numberShape
  | soundList
  | statusShape
  | categoryList
  | unitTypeList
  | playbackShape
deriving DecidableEq, Repr

structure ApiWrapper where
  name : String
  command : String
  args : List (String × ArgRequirement)
  result : ResultShape
deriving DecidableEq, Repr

def apiWrappers : List ApiWrapper :=
  [⟨"searchSounds", "search_sounds",
     [("query", .required), ("category", .optional), ("unitType", .optional)], .soundList⟩,
   ⟨"getCategories", "get_categories", [], .categoryList⟩,
   ⟨"getUnitTypes", "get_unit_types", [], .unitTypeList⟩,
   ⟨"toggleFavorite", "toggle_favorite", [("soundId", .required)], .boolShape⟩,
   ⟨"getFavoritesCount", "get_favorites_count", [], .numberShape⟩,
   ⟨"getFavorites", "get_favorites", [], .soundList⟩,
   ⟨"playSound", "play_sound", [("id", .required), ("filePath", .required)], .unitShape⟩,
   ⟨"stopSound", "stop_sound", [], .unitShape⟩,
   ⟨"pauseSound", "pause_sound", [], .unitShape⟩,
   ⟨"resumeSound", "resume_sound", [], .unitShape⟩,
   ⟨"seekSound", "seek_sound", [("positionSecs", .required)], .unitShape⟩,
   ⟨"setVolume", "set_volume", [("volume", .required)], .unitShape⟩,
   ⟨"getPlaybackStatus", "get_playback_status", [], .playbackShape⟩,
   ⟨"getExtractionStatus", "get_extraction_status", [], .statusShape⟩,
   ⟨"startExtraction", "start_extraction",
     [("gamePath", .required), ("includeMusic", .defaulted)], .unitShape⟩,
   ⟨"cancelExtraction", "cancel_extraction", [], .unitShape⟩,
   ⟨"clearCache", "clear_cache", [], .unitShape⟩]

/-- Following the words of the spec (for comparison with the source-derived
apiWrappers): each operation exposed to the external UI caller, with the
number of required arguments, the number of optional arguments, and the
result shape where the spec states one. -/
structure SpecOperation where
  opName : String
  requiredCount : ℕ
  optionalCount : ℕ
  result : Option ResultShape
deriving DecidableEq, Repr

def specOperations : List SpecOperation :=
  [⟨"start", 1, 0, none⟩,
   ⟨"cancel", 0, 0, none⟩,
   ⟨"status", 0, 0, some .statusShape⟩,
   ⟨"search", 1, 2, some .soundList⟩,
   ⟨"toggleFavorite", 1, 0, some .boolShape⟩,
   ⟨"clearCache", 0, 0, none⟩]

def wrapperNameFor : String → String
  | "start" => "startExtraction"
  | "cancel" => "cancelExtraction"
  | "status" => "getExtractionStatus"
  | "search" => "searchSounds"
  | "toggleFavorite" => "toggleFavorite"
  | "clearCache" => "clearCache"
  | _ => ""

/-- A wrapper matches a spec operation when its required and optional
argument counts agree (extra defaulted arguments may be omitted by the
caller, so they do not change the callable shape) and its result shape
agrees where the spec states one. -/
def matchesSpec (op : SpecOperation) (w : ApiWrapper) : Bool :=
  decide ((w.args.filter (fun a => a.2 = ArgRequirement.required)).length = op.requiredCount) &&
  decide ((w.args.filter (fun a => a.2 = ArgRequirement.optional)).length = op.optionalCount) &&
  (match op.result with
   | none => true
   | some shape => decide (w.result = shape))

def apiProvides (op : SpecOperation) : Bool :=
  apiWrappers.any (fun w => w.name = wrapperNameFor op.opName ∧ matchesSpec op w)

end Kithara

namespace Kithara

/-! ## Theorems -/

/-- C10: the filter state never combines the favorites view with a category
filter: after any sidebar selection, showFavoritesOnly = true implies
category = null, and fetchSounds queries either the favorites list or the
filtered search, never both in one request. -/
theorem sidebar_favorites_category_exclusive (sel : SidebarSelection) (f : FilterState) :
    ((applySidebar sel f).showFavoritesOnly = true → (applySidebar sel f).category = none) ∧
    ((applySidebar sel f).showFavoritesOnly = true →
      fetchSoundsRequest (applySidebar sel f) = .favoritesList) ∧
    ((applySidebar sel f).showFavoritesOnly = false →
      fetchSoundsRequest (applySidebar sel f) =
        .search (applySidebar sel f).query (applySidebar sel f).category
          (applySidebar sel f).unitType) := by
  cases sel <;>
    simp [applySidebar, handleFavoritesClick, handleCategoryClick, fetchSoundsRequest]

/-- Witness for C10 at a concrete selection and filter state. -/
theorem sidebar_favorites_category_exclusive_w :
    (applySidebar .favorites ⟨"axe", some "combat", none, false⟩).category = none ∧
    fetchSoundsRequest (applySidebar .favorites ⟨"axe", some "combat", none, false⟩) =
      .favoritesList :=
  ⟨(sidebar_favorites_category_exclusive .favorites ⟨"axe", some "combat", none, false⟩).1
      (by decide),
   (sidebar_favorites_category_exclusive .favorites ⟨"axe", some "combat", none, false⟩).2.1
      (by decide)⟩

/-- C9: SeekBar position arithmetic is total and bounded. Given the range
input constraint dragProgress within 0..100, displayProgress lies in
[0, 100]; outside dragging it is 0 whenever duration is not positive; and
handleMouseUp produces a seek position only when duration is positive, with
that position lying in [0, duration]. -/
theorem seekbar_bounded (isDragging : Bool) (dragProgress position duration : ℚ)
    (h0 : 0 ≤ dragProgress) (h1 : dragProgress ≤ 100) :
    (0 ≤ displayProgress isDragging dragProgress position duration ∧
      displayProgress isDragging dragProgress position duration ≤ 100) ∧
    (isDragging = false → duration ≤ 0 →
      displayProgress isDragging dragProgress position duration = 0) ∧
    (∀ p, handleMouseUp isDragging dragProgress duration = some p →
      0 < duration ∧ 0 ≤ p ∧ p ≤ duration) := by
  refine ⟨?_, ?_, ?_⟩
  · unfold displayProgress
    rcases isDragging with _ | _
    · simp only [Bool.false_eq_true, if_false]
      split
      · constructor
        · exact le_min (by norm_num) (le_max_left 0 _)
        · exact min_le_left _ _
      · constructor <;> norm_num
    · simpa using ⟨h0, h1⟩
  · intro hd hdur
    unfold displayProgress
    rw [hd]
    simp [not_lt.mpr hdur]
  · intro p hp
    unfold handleMouseUp at hp
    split at hp
    · rename_i hc
      obtain ⟨-, hdur⟩ := hc
      obtain rfl : dragProgress / 100 * duration = p := by
        simpa using hp
      refine ⟨hdur, mul_nonneg (div_nonneg h0 (by norm_num)) hdur.le, ?_⟩
      have hle : dragProgress / 100 ≤ 1 := by
        rw [div_le_one (by norm_num : (0:ℚ) < 100)]
        exact h1
      calc dragProgress / 100 * duration ≤ 1 * duration :=
            mul_le_mul_of_nonneg_right hle hdur.le
        _ = duration := one_mul _
    · exact absurd hp (by simp)

/-- Witness for C9 at a concrete drag state. -/
theorem seekbar_bounded_w :
    (0 ≤ displayProgress true 50 3 0 ∧ displayProgress true 50 3 0 ≤ 100) ∧
    (true = false → (0:ℚ) ≤ 0 → displayProgress true 50 3 0 = 0) ∧
    (∀ p, handleMouseUp true 50 0 = some p → 0 < (0:ℚ) ∧ 0 ≤ p ∧ p ≤ 0) :=
  seekbar_bounded true 50 3 0 (by norm_num) (by norm_num)

/-- C6: the job progress completedCount / totalCount lies in [0,1] when
completedCount is at most totalCount, and for every progress value in [0,1]
the derived progressPercent is an integer in [0,100]. -/
theorem progress_percent_bounds (c t : ℕ) (hct : c ≤ t) (ht : 0 < t) :
    (0 ≤ jobProgress c t ∧ jobProgress c t ≤ 1) ∧
    (∀ p : ℚ, 0 ≤ p → p ≤ 1 → 0 ≤ progressPercent p ∧ progressPercent p ≤ 100) := by
  constructor
  · constructor
    · exact div_nonneg (by positivity) (by positivity)
    · rw [jobProgress, div_le_one (by exact_mod_cast ht)]
      exact_mod_cast hct
  · intro p hp0 hp1
    constructor
    · rw [progressPercent, round_eq]
      have : (0:ℚ) ≤ p * 100 + 1 / 2 := by nlinarith
      exact Int.floor_nonneg.mpr this
    · rw [progressPercent, round_eq]
      have h2 : p * 100 + 1 / 2 < (100:ℤ) + 1 := by push_cast; nlinarith
      exact Int.lt_add_one_iff.mp (Int.floor_lt.mpr (by exact_mod_cast h2))

/-- Witness for C6 at one completed item out of two. -/
theorem progress_percent_bounds_w :
    (0 ≤ jobProgress 1 2 ∧ jobProgress 1 2 ≤ 1) ∧
    (∀ p : ℚ, 0 ≤ p → p ≤ 1 → 0 ≤ progressPercent p ∧ progressPercent p ≤ 100) :=
  progress_percent_bounds 1 2 (by norm_num) (by norm_num)

/-- C1: a start request while a job is already InProgress is a no-op that
returns the current status snapshot, and two start calls in succession
leave the job of the first call in place and yield the same status
snapshot. -/
theorem start_while_in_progress_noop (p q : String) (j : ExtractionJob) :
    (j.state = .inProgress → startRequest p j = (j, statusSnapshot j)) ∧
    startRequest q (startRequest p j).1 =
      ((startRequest p j).1, statusSnapshot (startRequest p j).1) ∧
    (startRequest q (startRequest p j).1).2 = (startRequest p j).2 := by
  refine ⟨fun h => by simp [startRequest, h], ?_, ?_⟩ <;>
    by_cases h : j.state = .inProgress <;> simp [startRequest, h]

/-- Witness for C1 at a concrete InProgress job. -/
theorem start_while_in_progress_noop_w :
    startRequest "game" ⟨.inProgress, 1/2, some "unit.wem", none, false⟩ =
      (⟨.inProgress, 1/2, some "unit.wem", none, false⟩,
       statusSnapshot ⟨.inProgress, 1/2, some "unit.wem", none, false⟩) :=
  (start_while_in_progress_noop "game" "game"
    ⟨.inProgress, 1/2, some "unit.wem", none, false⟩).1 rfl

/-- C5: the Categorizer is deterministic and side-effect free: it is
embedded as a pure function of the short name alone, so any two invocations
on the same short name yield the identical category, unitType, subcategory
and tags. -/
theorem categorizer_deterministic (s t : String) (h : s = t) :
    categorize s = categorize t := by rw [h]

/-- Witness for C5 at the short name of the spec scenario. -/
theorem categorizer_deterministic_w :
    categorize "cmbt.rng.slinger.short.00.MSTR.wav" =
      categorize "cmbt.rng.slinger.short.00.MSTR.wav" :=
  categorizer_deterministic "cmbt.rng.slinger.short.00.MSTR.wav"
    "cmbt.rng.slinger.short.00.MSTR.wav" rfl

/-- C7: every operation the spec exposes to the external UI caller has a
corresponding frontend wrapper with the stated argument and result shape;
in particular searchSounds takes a required query plus optional category
and unitType and returns a list of entries, getExtractionStatus returns
the four-field status record, and toggleFavorite returns the new boolean
value. -/
theorem api_surface_matches_spec :
    (∀ op ∈ specOperations, apiProvides op = true) ∧
    (∃ w ∈ apiWrappers, w.name = "searchSounds" ∧
      w.args = [("query", .required), ("category", .optional), ("unitType", .optional)] ∧
      w.result = .soundList) ∧
    (∃ w ∈ apiWrappers, w.name = "getExtractionStatus" ∧ w.args = [] ∧
      w.result = .statusShape) ∧
    (∀ s : ExtractionStatus, s = ⟨s.state, s.progress, s.currentFile, s.errMsg⟩) ∧
    (∃ w ∈ apiWrappers, w.name = "toggleFavorite" ∧
      w.args = [("soundId", .required)] ∧ w.result = .boolShape) := by
  refine ⟨by decide, by decide, by decide, fun s => rfl, by decide⟩

/-- Witness for C7 at the start operation. -/
theorem api_surface_matches_spec_w :
    apiProvides ⟨"start", 1, 0, none⟩ = true :=
  api_surface_matches_spec.1 ⟨"start", 1, 0, none⟩ (by decide)

theorem set_self_of_getElem? {α : Type} {l : List α} {i : ℕ} {a : α}
    (h : l[i]? = some a) : l.set i a = l := by
  induction l generalizing i with
  | nil => simp at h
  | cons x xs ih =>
    cases i with
    | zero =>
      simp only [List.getElem?_cons_zero, Option.some.injEq] at h
      simp [h]
    | succ n =>
      simp only [List.getElem?_cons_succ] at h
      simp [ih h]

theorem eta_isFavorite (s : Sound) : { s with isFavorite := s.isFavorite } = s := rfl

/-- C2: toggling a favorite flips isFavorite on exactly the matching row.
In the catalog (modelled from the spec) it returns the new value of the
flag, flips the row with the given id and leaves every other row unchanged;
in the frontend store, toggleFavoriteAction flips exactly the matching
entry and adjusts favoritesCount by -1 when it was favorited and +1 when it
was not, leaving the error field untouched. -/
theorem toggle_favorite_flips_one_row (rows : List Sound) (soundId : String) (r : Sound)
    (st : SoundsState) (i : ℕ) (sound : Sound) (v : Bool)
    (hnd : (rows.map Sound.id).Nodup) (hr : r ∈ rows) (hid : r.id = soundId)
    (hfi : findIndex (fun s => s.id = soundId) st.sounds = some i)
    (hget : st.sounds[i]? = some sound) :
    (catalogToggleFavorite rows soundId).1 = some (!r.isFavorite) ∧
    (∀ (j : ℕ) (s : Sound), rows[j]? = some s →
      (catalogToggleFavorite rows soundId).2[j]? =
        some (if s.id = soundId then { s with isFavorite := !s.isFavorite } else s)) ∧
    (∀ s ∈ rows, s ≠ r → s.id ≠ soundId) ∧
    (toggleFavoriteAction soundId (.ok v) st).sounds[i]? =
      some { sound with isFavorite := !sound.isFavorite } ∧
    (∀ j, j ≠ i → (toggleFavoriteAction soundId (.ok v) st).sounds[j]? = st.sounds[j]?) ∧
    (toggleFavoriteAction soundId (.ok v) st).favoritesCount =
      st.favoritesCount + (if sound.isFavorite then -1 else 1) ∧
    (toggleFavoriteAction soundId (.ok v) st).errMsg = st.errMsg := by
  have hfound : rows.find? (fun x => x.id = soundId) = some r := by
    cases hf : rows.find? (fun x => x.id = soundId) with
    | none =>
      exact absurd (by simpa using List.find?_eq_none.mp hf r hr) (by simp [hid])
    | some r₀ =>
      have hmem : r₀ ∈ rows := List.mem_of_find?_eq_some hf
      have hpr : r₀.id = soundId := by simpa using List.find?_some hf
      have : r₀ = r :=
        List.inj_on_of_nodup_map hnd hmem hr (by rw [hpr, hid])
      rw [this]
    -- the backend row with the matching id is r itself
  have hilen : i < st.sounds.length := by
    rcases List.getElem?_eq_some.mp hget with ⟨hlt, -⟩
    exact hlt
  refine ⟨?_, ?_, ?_, ?_, ?_, ?_, ?_⟩
  · simp [catalogToggleFavorite, hfound]
  · intro j s hjs
    simp [catalogToggleFavorite, hfound, List.getElem?_map, hjs]
  · intro s hs hne hsid
    exact hne (List.inj_on_of_nodup_map hnd hs hr (by rw [hsid, hid]))
  · simp only [toggleFavoriteAction, hfi, hget]
    exact List.getElem?_set_eq_of_lt _ hilen
  · intro j hj
    simp only [toggleFavoriteAction, hfi, hget]
    exact List.getElem?_set_ne (fun h => hj h.symm)
  · simp [toggleFavoriteAction, hfi, hget]
  · simp [toggleFavoriteAction, hfi, hget]

/-- Witness for C2 at a one-row catalog and a one-entry store. -/
theorem toggle_favorite_flips_one_row_w :
    (catalogToggleFavorite
        [⟨"s1", "ev", "Ev", "combat", none, "cmbt", 0, "/f.ogg", [], false⟩] "s1").1 =
      some true ∧
    (toggleFavoriteAction "s1" (.ok true)
        ⟨[⟨"s1", "ev", "Ev", "combat", none, "cmbt", 0, "/f.ogg", [], false⟩], 0, false,
          none⟩).favoritesCount = 0 + 1 := by
  have h := toggle_favorite_flips_one_row
    [⟨"s1", "ev", "Ev", "combat", none, "cmbt", 0, "/f.ogg", [], false⟩] "s1"
    ⟨"s1", "ev", "Ev", "combat", none, "cmbt", 0, "/f.ogg", [], false⟩
    ⟨[⟨"s1", "ev", "Ev", "combat", none, "cmbt", 0, "/f.ogg", [], false⟩], 0, false, none⟩
    0 ⟨"s1", "ev", "Ev", "combat", none, "cmbt", 0, "/f.ogg", [], false⟩ true
    (by decide) (by decide) (by decide) (by decide) (by decide)
  refine ⟨h.1, ?_⟩
  have h6 := h.2.2.2.2.2.1
  simpa using h6

/-- C8: toggleFavoriteAction is atomic with respect to failure: an unknown
soundId leaves the state unchanged, and a rejected backend call rolls the
optimistic update fully back, restoring the entry and favoritesCount and
setting only the error message. -/
theorem toggle_favorite_rollback (soundId : String) (st : SoundsState)
    (b : Except String Bool) (i : ℕ) (sound : Sound) (e : String) :
    (findIndex (fun s => s.id = soundId) st.sounds = none →
      toggleFavoriteAction soundId b st = st) ∧
    (findIndex (fun s => s.id = soundId) st.sounds = some i → st.sounds[i]? = some sound →
      toggleFavoriteAction soundId (.error e) st =
        { st with errMsg := some ("Failed to toggle favorite: " ++ e) }) := by
  constructor
  · intro hfi
    simp [toggleFavoriteAction, hfi]
  · intro hfi hget
    have hsounds : (st.sounds.set i { sound with isFavorite := !sound.isFavorite }).set i
        { sound with isFavorite := sound.isFavorite } = st.sounds := by
      rw [List.set_set, eta_isFavorite]
      exact set_self_of_getElem? hget
    simp only [toggleFavoriteAction, hfi, hget, hsounds]

theorem map_self_of_fixes {α : Type} (l : List α) (f : α → α) (h : ∀ x ∈ l, f x = x) :
    l.map f = l := by
  induction l with
  | nil => rfl
  | cons x xs ih =>
    simp only [List.map_cons, h x (by simp), List.cons.injEq, true_and]
    exact ih (fun y hy => h y (by simp [hy]))

theorem ids_map_replace (rows : List Sound) (e : Sound) :
    ((rows.map (fun r => if r.id = e.id then e else r)).map Sound.id) = rows.map Sound.id := by
  induction rows with
  | nil => rfl
  | cons x xs ih =>
    simp only [List.map_cons, List.cons.injEq]
    refine ⟨?_, ih⟩
    split
    · rename_i h
      exact h.symm
    · rfl

theorem mem_ids_upsert_self (rows : List Sound) (e : Sound) :
    e.id ∈ (upsert rows e).map Sound.id := by
  unfold upsert
  split
  · rename_i h
    rw [ids_map_replace]
    obtain ⟨r, hr, hid⟩ := List.any_eq_true.mp h
    have : e.id = r.id := (of_decide_eq_true hid).symm
    rw [this]
    exact List.mem_map_of_mem Sound.id hr
  · simp

theorem upsert_agrees (rows : List Sound) (e : Sound) :
    ∀ r ∈ upsert rows e, r.id = e.id → r = e := by
  unfold upsert
  split
  · intro r hr hid
    obtain ⟨x, hx, hfx⟩ := List.mem_map.mp hr
    by_cases h : x.id = e.id
    · rw [if_pos h] at hfx
      exact hfx.symm
    · rw [if_neg h] at hfx
      exact absurd (hfx ▸ hid) h
  · rename_i hany
    intro r hr hid
    rcases List.mem_append.mp hr with hmem | hmem
    · exact absurd (List.any_eq_true.mpr ⟨r, hmem, decide_eq_true hid⟩) hany
    · simpa using hmem

theorem mem_ids_upsert_of_mem (rows : List Sound) (f : Sound) {a : String}
    (h : a ∈ rows.map Sound.id) : a ∈ (upsert rows f).map Sound.id := by
  unfold upsert
  split
  · rw [ids_map_replace]
    exact h
  · simp only [List.map_append, List.mem_append]
    exact Or.inl h

theorem upsert_preserves_agrees (rows : List Sound) (e f : Sound) (hne : f.id ≠ e.id)
    (hag : ∀ r ∈ rows, r.id = e.id → r = e) :
    ∀ r ∈ upsert rows f, r.id = e.id → r = e := by
  unfold upsert
  split
  · intro r hr hid
    obtain ⟨x, hx, hfx⟩ := List.mem_map.mp hr
    by_cases h : x.id = f.id
    · rw [if_pos h] at hfx
      subst hfx
      exact absurd hid hne
    · rw [if_neg h] at hfx
      subst hfx
      exact hag x hx hid
  · intro r hr hid
    rcases List.mem_append.mp hr with hmem | hmem
    · exact hag r hmem hid
    · have hrf : r = f := by simpa using hmem
      subst hrf
      exact absurd hid hne

theorem run_preserves_key (bs : List Sound) (rows : List Sound) (e : Sound)
    (hne : ∀ f ∈ bs, f.id ≠ e.id)
    (hmem : e.id ∈ rows.map Sound.id) (hag : ∀ r ∈ rows, r.id = e.id → r = e) :
    e.id ∈ (runExtraction rows bs).map Sound.id ∧
      ∀ r ∈ runExtraction rows bs, r.id = e.id → r = e := by
  induction bs generalizing rows with
  | nil => exact ⟨hmem, hag⟩
  | cons f fs ih =>
    exact ih (upsert rows f) (fun g hg => hne g (List.mem_cons_of_mem f hg))
      (mem_ids_upsert_of_mem rows f hmem)
      (upsert_preserves_agrees rows e f (hne f (List.mem_cons_self f fs)) hag)

theorem upsert_stable (rows : List Sound) (e : Sound)
    (hmem : e.id ∈ rows.map Sound.id) (hag : ∀ r ∈ rows, r.id = e.id → r = e) :
    upsert rows e = rows := by
  obtain ⟨r, hr, hid⟩ := List.mem_map.mp hmem
  unfold upsert
  rw [if_pos (List.any_eq_true.mpr ⟨r, hr, decide_eq_true hid⟩)]
  refine map_self_of_fixes rows _ (fun x hx => ?_)
  by_cases h : x.id = e.id
  · rw [if_pos h]
    exact (hag x hx h).symm
  · rw [if_neg h]

theorem upsert_nodup_ids (rows : List Sound) (e : Sound)
    (h : (rows.map Sound.id).Nodup) : ((upsert rows e).map Sound.id).Nodup := by
  unfold upsert
  split
  · rw [ids_map_replace]
    exact h
  · rename_i hany
    have hnot : e.id ∉ rows.map Sound.id := by
      intro hmem
      obtain ⟨r, hr, hid⟩ := List.mem_map.mp hmem
      exact (by simpa using hany : ¬ rows.any (fun r => r.id = e.id) = true)
        (List.any_eq_true.mpr ⟨r, hr, decide_eq_true hid⟩)
    simp only [List.map_append, List.map_cons, List.map_nil]
    rw [List.nodup_append]
    refine ⟨h, List.nodup_singleton _, fun a ha hb => ?_⟩
    have hae : a = e.id := by simpa using hb
    exact hnot (hae ▸ ha)

theorem run_nodup_ids (batch : List Sound) (rows : List Sound)
    (h : (rows.map Sound.id).Nodup) :
    ((runExtraction rows batch).map Sound.id).Nodup := by
  induction batch generalizing rows with
  | nil => exact h
  | cons b bs ih => exact ih (upsert rows b) (upsert_nodup_ids rows b h)

/-- C4: re-running extraction against unchanged input is idempotent: since
upsert is keyed by the stable derived id (unique per derived row), the
catalog after two consecutive runs equals the catalog after one run, with
the same row count, and distinct ids stay distinct so no duplicate rows are
created. -/
theorem extraction_rerun_idempotent (rows batch : List Sound)
    (hbatch : (batch.map Sound.id).Nodup) :
    runExtraction (runExtraction rows batch) batch = runExtraction rows batch ∧
    (runExtraction (runExtraction rows batch) batch).length =
      (runExtraction rows batch).length ∧
    ((rows.map Sound.id).Nodup → ((runExtraction rows batch).map Sound.id).Nodup) := by
  have main : runExtraction (runExtraction rows batch) batch = runExtraction rows batch := by
    induction batch generalizing rows with
    | nil => rfl
    | cons b bs ih =>
      have hnd : b.id ∉ bs.map Sound.id ∧ (bs.map Sound.id).Nodup := by
        simpa using hbatch
      have hne : ∀ f ∈ bs, f.id ≠ b.id := by
        intro f hf hfb
        exact hnd.1 (hfb ▸ List.mem_map_of_mem Sound.id hf)
      have hkey := run_preserves_key bs (upsert rows b) b hne
        (mem_ids_upsert_self rows b) (upsert_agrees rows b)
      have hstep : runExtraction rows (b :: bs) = runExtraction (upsert rows b) bs := rfl
      rw [hstep]
      have hL : runExtraction (runExtraction (upsert rows b) bs) (b :: bs) =
          runExtraction (upsert (runExtraction (upsert rows b) bs) b) bs := rfl
      rw [hL, upsert_stable _ b hkey.1 hkey.2]
      exact ih (upsert rows b) hnd.2
  exact ⟨main, by rw [main], run_nodup_ids batch rows⟩

/-- C3: when a container parses successfully, every validated index record's
byte range lies within the data chunk length; a record violating the bound
is skipped with a MalformedBank message naming its assetId while the
container still parses; and a missing header chunk, a missing index chunk,
or a truncated index chunk aborts the whole container. -/
theorem bank_index_ranges_valid (chunks : List Chunk) (pb : ParsedBank) (r : IndexRecord) :
    (parseBank chunks = .ok pb → ∀ q ∈ pb.records, q.offset + q.size ≤ pb.dataLen) ∧
    (parseBank chunks = .ok pb → r ∈ bankRecords chunks → pb.dataLen < r.offset + r.size →
      (r.assetId, skipMessage r.assetId) ∈ pb.skipped) ∧
    (headerPresent chunks = false →
      ∃ msg, parseBank chunks = .error (.malformedBank msg)) ∧
    (findChunk indexTag chunks = none →
      ∃ msg, parseBank chunks = .error (.malformedBank msg)) ∧
    (∀ idx, findChunk indexTag chunks = some idx → idx.payload.length % 12 ≠ 0 →
      ∃ msg, parseBank chunks = .error (.malformedBank msg)) := by
  refine ⟨?_, ?_, ?_, ?_, ?_⟩
  · intro hok q hq
    unfold parseBank at hok
    split at hok
    · exact absurd hok (by simp)
    · split at hok
      · exact absurd hok (by simp)
      · split at hok
        · exact absurd hok (by simp)
        · cases hok
          simp only [ParsedBank.records] at hq
          exact of_decide_eq_true (List.mem_filter.mp hq).2
  · intro hok hmem hlt
    unfold parseBank at hok
    split at hok
    · exact absurd hok (by simp)
    · split at hok
      · exact absurd hok (by simp)
      · rename_i idx heq
        split at hok
        · exact absurd hok (by simp)
        · cases hok
          simp only [ParsedBank.skipped]
          simp only [ParsedBank.dataLen] at hlt
          have hmem' : r ∈ parseRecords idx.payload := by
            unfold bankRecords at hmem
            rw [heq] at hmem
            exact hmem
          refine List.mem_map.mpr ⟨r, List.mem_filter.mpr ⟨hmem', ?_⟩, rfl⟩
          exact decide_eq_true (not_le.mpr hlt)
  · intro hh
    exact ⟨"missing header chunk", by simp [parseBank, hh]⟩
  · intro hnone
    by_cases hh : headerPresent chunks = false
    · exact ⟨"missing header chunk", by simp [parseBank, hh]⟩
    · exact ⟨"missing index chunk", by simp [parseBank, hh, hnone]⟩
  · intro idx hidx hmod
    by_cases hh : headerPresent chunks = false
    · exact ⟨"missing header chunk", by simp [parseBank, hh]⟩
    · exact ⟨"truncated index chunk", by simp [parseBank, hh, hidx, hmod]⟩

/-- Witness for C3: the spec scenario container with three index records,
one pointing past the end of the eight-byte data chunk, parses with two
validated records and one recorded MalformedBank skip naming asset 3. -/
theorem bank_index_ranges_valid_w :
    (3, skipMessage 3) ∈
      (ParsedBank.mk [⟨1, 0, 4⟩, ⟨2, 4, 4⟩] [(3, skipMessage 3)] 8).skipped :=
  (bank_index_ranges_valid
    [⟨"BKHD", [0]⟩,
     ⟨"DIDX", [1,0,0,0, 0,0,0,0, 4,0,0,0, 2,0,0,0, 4,0,0,0, 4,0,0,0,
               3,0,0,0, 8,0,0,0, 4,0,0,0]⟩,
     ⟨"DATA", [9,9,9,9,9,9,9,9]⟩]
    (ParsedBank.mk [⟨1, 0, 4⟩, ⟨2, 4, 4⟩] [(3, skipMessage 3)] 8)
    ⟨3, 8, 4⟩).2.1 (by rfl) (by decide) (by decide)

/-- Witness for C4 on a concrete two-row batch over an empty catalog. -/
theorem extraction_rerun_idempotent_w :
    runExtraction
        (runExtraction []
          [⟨"a1", "e1", "E1", "combat", none, "c", 0, "/1.ogg", [], false⟩,
           ⟨"a2", "e2", "E2", "vocal", none, "v", 0, "/2.ogg", [], false⟩])
        [⟨"a1", "e1", "E1", "combat", none, "c", 0, "/1.ogg", [], false⟩,
         ⟨"a2", "e2", "E2", "vocal", none, "v", 0, "/2.ogg", [], false⟩] =
      runExtraction []
        [⟨"a1", "e1", "E1", "combat", none, "c", 0, "/1.ogg", [], false⟩,
         ⟨"a2", "e2", "E2", "vocal", none, "v", 0, "/2.ogg", [], false⟩] :=
  (extraction_rerun_idempotent []
    [⟨"a1", "e1", "E1", "combat", none, "c", 0, "/1.ogg", [], false⟩,
     ⟨"a2", "e2", "E2", "vocal", none, "v", 0, "/2.ogg", [], false⟩] (by decide)).1

/-- Witness for C8 with a backend rejection on a one-entry store. -/
theorem toggle_favorite_rollback_w :
    toggleFavoriteAction "s1" (.error "db locked")
        ⟨[⟨"s1", "ev", "Ev", "combat", none, "cmbt", 0, "/f.ogg", [], true⟩], 1, false,
          none⟩ =
      { sounds := [⟨"s1", "ev", "Ev", "combat", none, "cmbt", 0, "/f.ogg", [], true⟩],
        favoritesCount := 1, loading := false,
        errMsg := some ("Failed to toggle favorite: " ++ "db locked") } :=
  (toggle_favorite_rollback "s1"
    ⟨[⟨"s1", "ev", "Ev", "combat", none, "cmbt", 0, "/f.ogg", [], true⟩], 1, false, none⟩
    (.error "db locked") 0
    ⟨"s1", "ev", "Ev", "combat", none, "cmbt", 0, "/f.ogg", [], true⟩ "db locked").2
    (by decide) (by decide)

end Kithara
